import Mathlib

/-!
Shallow embedding of the osm-renderer stroke opacity calculator
(src/draw/opacity_calculator.rs) and of the tile-range arithmetic
(src/tile.rs).

f64 arithmetic is modelled by exact rational arithmetic.  The two spots where
IEEE f64 behaviour is observable are modelled explicitly:

* Rust's `%` on f64 is fmod, i.e. `x - y * trunc (x / y)` (`frem` below);
* the square root in `OpacityCalculator::calculate` is applied to
  `half_line_width^2 - cap_dist^2` with no guard, so a negative argument
  yields NaN.  Rust's `f64::max` / `f64::min` return the other operand when
  one operand is NaN and every comparison with NaN is false; the NaN branch of
  `calculate` is evaluated under exactly those rules
  (`get_opacity_by_center_distance_nan_hw`).  When the argument is nonnegative
  the value is `Real.sqrt` of a rational, which is evaluated exactly in the
  quadratic extension ℚ adjoined √x (`QExt` below).
-/

/-- Modelled from the spec: the cap style tag {Butt, Square, Round} supplied by
the styling system (`mapcss::styler::LineCap`, whose declaration lives outside
this repository's sources; the spec lists exactly these three styles). -/
inductive LineCap
  | butt
  | square
  | round
  deriving DecidableEq

/-- DashSegment from the source: one feathered "on" dash interval. -/
structure DashSegment where
  start_from : ℚ
  start_to : ℚ
  end_from : ℚ
  end_to : ℚ
  opacity_mul : ℚ
  original_endpoints : Option (ℚ × ℚ)
  deriving DecidableEq

/-- OpacityCalculator state from the source. -/
structure OpacityCalculator where
  half_line_width : ℚ
  dashes : List DashSegment
  total_dash_len : ℚ
  traveled_distance : ℚ
  deriving DecidableEq

/-- StartDistanceOpacityData from the source. -/
structure StartDistanceOpacityData where
  opacity : ℚ
  distance_in_cap : Option ℚ
  deriving DecidableEq

/-- Truncation toward zero, as Rust f64 `%` uses. -/
def ftrunc (q : ℚ) : ℤ := if 0 ≤ q then ⌊q⌋ else ⌈q⌉

/-- Rust f64 `%` (fmod): `x - y * trunc (x / y)`. -/
def frem (x y : ℚ) : ℚ := x - y * (ftrunc (x / y) : ℚ)

/-- Body of the per-dash loop of compute_segments from the source: builds the
segment pushed for the "on" dash spanning `[start0, start0 + dash)`. -/
def buildSegment (half_line_width : ℚ) (line_cap : Option LineCap)
    (start0 dash : ℚ) : DashSegment :=
  let end0 := start0 + dash
  let original_endpoints : Option (ℚ × ℚ) :=
    match line_cap with
    | some LineCap.round => some (start0, end0)
    | _ => none
  let se : ℚ × ℚ :=
    match line_cap with
    | some LineCap.square => (start0 - half_line_width, end0 + half_line_width)
    | some LineCap.round => (start0 - half_line_width, end0 + half_line_width)
    | _ => (start0, end0)
  let midpoint := (se.1 + se.2) / 2
  { start_from := min (se.1 - 1/2) (midpoint - 1)
    start_to := min (se.1 + 1/2) midpoint
    end_from := max (se.2 - 1/2) midpoint
    end_to := max (se.2 + 1/2) (midpoint + 1)
    opacity_mul := min (se.2 - se.1) 1
    original_endpoints := original_endpoints }

/-- Length added to a dash span by the cap extension of compute_segments:
Square and Round caps extend the span by half_line_width on both ends. -/
def capExt (half_line_width : ℚ) (line_cap : Option LineCap) : ℚ :=
  match line_cap with
  | some LineCap.square => 2 * half_line_width
  | some LineCap.round => 2 * half_line_width
  | _ => 0

/-- One iteration of the compute_segments loop.  The accumulator is
`(segments, len_before)`.  `dashes[idx]` panics when the index is out of
bounds (which happens for an empty dash vector), modelled by `none`. -/
def segStep (half_line_width : ℚ) (dashes : List ℚ) (line_cap : Option LineCap)
    (acc : List DashSegment × ℚ) (idx : ℕ) : Option (List DashSegment × ℚ) :=
  match dashes[idx]? with
  | none => none
  | some dash =>
    let start := acc.2
    let len2 := if idx ≠ 0 ∨ acc.1 = [] then acc.2 + dash else acc.2
    if idx % 2 ≠ 0 then some (acc.1, len2)
    else some (acc.1 ++ [buildSegment half_line_width line_cap start dash], len2)

/-- compute_segments from the source.  The index sequence is
`(0..dashes.len()).chain(0..1)`: every index once, then index 0 again so the
very first cap is not missed when distances wrap. -/
def compute_segments (half_line_width : ℚ) (dashes : List ℚ)
    (line_cap : Option LineCap) : Option (List DashSegment × ℚ) :=
  List.foldlM (segStep half_line_width dashes line_cap)
    ([], 0) (List.range dashes.length ++ List.range 1)

/-- OpacityCalculator::new from the source.  `none` models a construction that
panics (index out of bounds inside compute_segments). -/
def OpacityCalculator.new (line_width : ℚ) (dashes : Option (List ℚ))
    (line_cap : Option LineCap) : Option OpacityCalculator :=
  let hw := line_width / 2
  match dashes with
  | none =>
    some { half_line_width := hw, dashes := [], total_dash_len := 0,
           traveled_distance := 0 }
  | some ds =>
    (compute_segments hw ds line_cap).map (fun out =>
      { half_line_width := hw, dashes := out.1, total_dash_len := out.2,
        traveled_distance := 0 })

/-- OpacityCalculator::add_traveled_distance from the source. -/
def OpacityCalculator.add_traveled_distance (c : OpacityCalculator)
    (distance : ℚ) : OpacityCalculator :=
  { c with traveled_distance := c.traveled_distance + distance }

/-- get_opacity_by_segment from the source. -/
def get_opacity_by_segment (dist : ℚ) (segment : DashSegment) : Option ℚ :=
  let base_opacity : Option ℚ :=
    if dist < segment.start_from then none
    else if dist ≤ segment.start_to then
      some ((dist - segment.start_from) / (segment.start_to - segment.start_from))
    else if dist < segment.end_from then some 1
    else if dist ≤ segment.end_to then
      some ((segment.end_to - dist) / (segment.end_to - segment.end_from))
    else none
  base_opacity.map (fun op => segment.opacity_mul * op)

/-- get_distance_in_cap from the source. -/
def get_distance_in_cap (dist : ℚ) (segment : DashSegment) : Option ℚ :=
  segment.original_endpoints.bind (fun p =>
    if dist < p.1 then some (p.1 - dist)
    else if dist ≤ p.2 then none
    else some (dist - p.2))

/-- One step of Rust's `Iterator::max_by` on `(segment, opacity)` pairs,
comparing opacities: when several elements are equally maximal the last one is
kept (`cmp::max_by` keeps the earlier element only when the later one is
strictly smaller). -/
def pickMax (acc : Option (DashSegment × ℚ)) (p : DashSegment × ℚ) :
    Option (DashSegment × ℚ) :=
  match acc with
  | none => some p
  | some q => if p.2 < q.2 then some q else some p

/-- Rust `Iterator::max_by` over a list of `(segment, opacity)` pairs. -/
def max_by_opacity (l : List (DashSegment × ℚ)) : Option (DashSegment × ℚ) :=
  l.foldl pickMax none

/-- OpacityCalculator::get_opacity_by_start_distance from the source. -/
def OpacityCalculator.get_opacity_by_start_distance (c : OpacityCalculator)
    (start_distance : ℚ) : StartDistanceOpacityData :=
  if c.dashes = [] then { opacity := 1, distance_in_cap := none }
  else
    let dist_rem := frem (c.traveled_distance + start_distance) c.total_dash_len
    let best := max_by_opacity (c.dashes.filterMap (fun d =>
      (get_opacity_by_segment dist_rem d).map (fun op => (d, op))))
    { opacity := (best.map (fun x => x.2)).getD 0
      distance_in_cap := (best.map (fun x => x.1)).bind (fun d =>
        get_distance_in_cap dist_rem d) }

/-- get_opacity_by_center_distance from the source, for a numeric (non-NaN)
half line width. -/
def get_opacity_by_center_distance (center_distance half_line_width : ℚ) : ℚ :=
  let feather_from := max (half_line_width - 1/2) 0
  let feather_to := max (half_line_width + 1/2) 1
  let feather_dist := feather_to - feather_from
  let opacity_mul := min (2 * half_line_width) 1
  opacity_mul *
    (if center_distance < feather_from then 1
     else if center_distance < feather_to then
       (feather_to - center_distance) / feather_dist
     else 0)

/-- get_opacity_by_center_distance when the half_line_width argument is the
f64 NaN produced by `(hw^2 - cap_dist^2).sqrt()` on a negative argument.  In
Rust f64 arithmetic NaN - 0.5, NaN + 0.5 and 2.0 * NaN are NaN, `f64::max` and
`f64::min` return the other operand when one operand is NaN, and every
comparison with NaN is false.  Hence feather_from = max(NaN, 0) = 0,
feather_to = max(NaN, 1) = 1, feather_dist = 1, opacity_mul = min(NaN, 1) = 1,
and the branch is selected by comparing center_distance with 0 and 1. -/
def get_opacity_by_center_distance_nan_hw (center_distance : ℚ) : ℚ :=
  1 * (if center_distance < 0 then 1
       else if center_distance < 1 then (1 - center_distance) / 1
       else 0)

/-- Element of ℚ adjoined √r for an ambient radicand r ≥ 0 fixed per
operation: the pair `(a, b)` represents the real number `a + b * Real.sqrt r`.
Used to evaluate the across-path resolver exactly when the effective half
width of a round cap is an irrational square root. -/
abbrev QExt := ℚ × ℚ

/-- Embedding of a rational into `QExt`. -/
def QExt.ofQ (q : ℚ) : QExt := (q, 0)

def QExt.add (x y : QExt) : QExt := (x.1 + y.1, x.2 + y.2)

def QExt.sub (x y : QExt) : QExt := (x.1 - y.1, x.2 - y.2)

def QExt.mul (r : ℚ) (x y : QExt) : QExt :=
  (x.1 * y.1 + x.2 * y.2 * r, x.1 * y.2 + x.2 * y.1)

/-- Inverse in ℚ adjoined √r via the conjugate.  For a nonsquare radicand the
denominator vanishes only at 0 (and the calculator never divides by 0 here). -/
def QExt.inv (r : ℚ) (y : QExt) : QExt :=
  let dnm := y.1 ^ 2 - y.2 ^ 2 * r
  (y.1 / dnm, -y.2 / dnm)

def QExt.div (r : ℚ) (x y : QExt) : QExt := QExt.mul r x (QExt.inv r y)

/-- Decides `x < y` for the real values represented by `x` and `y`
(with radicand r ≥ 0), by sign analysis of `u + v√r` where `u, v` are the
component differences. -/
def QExt.ltb (r : ℚ) (x y : QExt) : Bool :=
  let u := x.1 - y.1
  let v := x.2 - y.2
  if v = 0 then decide (u < 0)
  else if 0 < v then decide (u < 0 ∧ v ^ 2 * r < u ^ 2)
  else decide (u < 0 ∨ u ^ 2 < v ^ 2 * r)

/-- Rust `f64::min` on non-NaN values represented in `QExt`. -/
def QExt.min (r : ℚ) (x y : QExt) : QExt := if QExt.ltb r x y then x else y

/-- Rust `f64::max` on non-NaN values represented in `QExt`. -/
def QExt.max (r : ℚ) (x y : QExt) : QExt := if QExt.ltb r x y then y else x

/-- Exact square root test for a rational: `some s` when `x = s^2` with `s ≥ 0`
rational (`x` is stored in lowest terms, so it is a rational square exactly
when numerator and denominator are integer squares), `none` otherwise. -/
def ratSqrt (x : ℚ) : Option ℚ :=
  let sn := Nat.sqrt x.num.toNat
  let sdn := Nat.sqrt x.den
  if 0 ≤ x.num ∧ sn * sn = x.num.toNat ∧ sdn * sdn = x.den then
    some ((sn : ℚ) / (sdn : ℚ))
  else none

/-- get_opacity_by_center_distance from the source, evaluated in ℚ adjoined
√r when the half line width is the (non-NaN) square root of the radicand r. -/
def get_opacity_by_center_distance_ext (center_distance : ℚ) (r : ℚ)
    (half_line_width : QExt) : QExt :=
  let feather_from := QExt.max r (QExt.sub half_line_width (QExt.ofQ (1/2))) (QExt.ofQ 0)
  let feather_to := QExt.max r (QExt.add half_line_width (QExt.ofQ (1/2))) (QExt.ofQ 1)
  let feather_dist := QExt.sub feather_to feather_from
  let opacity_mul := QExt.min r (QExt.mul r (QExt.ofQ 2) half_line_width) (QExt.ofQ 1)
  QExt.mul r opacity_mul
    (if QExt.ltb r (QExt.ofQ center_distance) feather_from then QExt.ofQ 1
     else if QExt.ltb r (QExt.ofQ center_distance) feather_to then
       QExt.div r (QExt.sub feather_to (QExt.ofQ center_distance)) feather_dist
     else QExt.ofQ 0)

/-- OpacityData from the source.  The opacity is an `QExt` value; in every
branch of `calculate` except the irrational-root one its second component is 0
and the opacity is the plain rational first component. -/
structure OpacityData where
  opacity : QExt
  is_in_line : Bool
  deriving DecidableEq

/-- OpacityCalculator::calculate from the source.  The source computes
`(self.half_line_width.powi(2) - cap_dist.powi(2)).sqrt()` with no guard; we
split on the sign of the argument: negative gives the f64 NaN (evaluated by
`get_opacity_by_center_distance_nan_hw`), a nonnegative rational square gives
that rational root, and otherwise the effective half width is the irrational
`Real.sqrt x`, evaluated exactly in `QExt` with radicand `x`. -/
def OpacityCalculator.calculate (c : OpacityCalculator)
    (center_distance start_distance : ℚ) : OpacityData :=
  let sd := c.get_opacity_by_start_distance start_distance
  match sd.distance_in_cap with
  | none =>
    let cd := get_opacity_by_center_distance center_distance c.half_line_width
    { opacity := QExt.ofQ (min sd.opacity cd), is_in_line := decide (0 < cd) }
  | some cap_dist =>
    let x := c.half_line_width ^ 2 - cap_dist ^ 2
    if x < 0 then
      let cd := get_opacity_by_center_distance_nan_hw center_distance
      { opacity := QExt.ofQ (min sd.opacity cd), is_in_line := decide (0 < cd) }
    else
      match ratSqrt x with
      | some s =>
        let cd := get_opacity_by_center_distance center_distance s
        { opacity := QExt.ofQ (min sd.opacity cd), is_in_line := decide (0 < cd) }
      | none =>
        let cd := get_opacity_by_center_distance_ext center_distance x
          ((0 : ℚ), (1 : ℚ))
        { opacity := QExt.min x (QExt.ofQ sd.opacity) cd,
          is_in_line := QExt.ltb x (QExt.ofQ 0) cd }

/-- MAX_ZOOM from src/tile.rs. -/
def MAX_ZOOM : ℕ := 18

/-- TILE_SIZE from src/tile.rs. -/
def TILE_SIZE : ℕ := 256

/-- Tile from src/tile.rs. -/
structure Tile where
  zoom : ℕ
  x : ℕ
  y : ℕ
  deriving DecidableEq

/-- TileRange from src/tile.rs. -/
structure TileRange where
  min_x : ℕ
  max_x : ℕ
  min_y : ℕ
  max_y : ℕ
  deriving DecidableEq

/-- coords_to_max_zoom_tile from the source, parameterized by the Web Mercator
projection `coords_to_xy` at MAX_ZOOM.  The projection itself uses f64
transcendental functions (tan, ln) and is out of scope per the spec; it is
abstracted as an arbitrary function into pixel coordinates, so the theorems
below hold for the actual projection in particular. -/
def coords_to_max_zoom_tile {C : Type} (coords_to_xy18 : C → ℕ × ℕ)
    (coords : C) : Tile :=
  let p := coords_to_xy18 coords
  { zoom := MAX_ZOOM, x := p.1 / TILE_SIZE, y := p.2 / TILE_SIZE }

/-- coords_pair_to_max_zoom_tile_range from the source. -/
def coords_pair_to_max_zoom_tile_range {C : Type} (coords_to_xy18 : C → ℕ × ℕ)
    (coords1 coords2 : C) : TileRange :=
  let tile1 := coords_to_max_zoom_tile coords_to_xy18 coords1
  let tile2 := coords_to_max_zoom_tile coords_to_xy18 coords2
  { min_x := min tile1.x tile2.x
    max_x := max tile1.x tile2.x
    min_y := min tile1.y tile2.y
    max_y := max tile1.y tile2.y }

/-- Sample calculator used by the witnesses: line width 2, dash pattern
[2, 4], round caps. -/
def calcA : OpacityCalculator :=
  (OpacityCalculator.new 2 (some [2, 4]) (some LineCap.round)).getD
    { half_line_width := 0, dashes := [], total_dash_len := 0,
      traveled_distance := 0 }

/-- First segment of `compute_segments 1 [2, 2] none`, used by witnesses. -/
def segW1 : DashSegment := buildSegment 1 none 0 2

/-- Second segment of `compute_segments 1 [2, 2] none`, used by witnesses. -/
def segW2 : DashSegment := buildSegment 1 none 4 2

/-! ### Helper lemmas -/

lemma frem_add_right (x y : ℚ) (hx : 0 ≤ x) (hy : 0 < y) :
    frem (x + y) y = frem x y := by
  have hy0 : y ≠ 0 := ne_of_gt hy
  have hdiv : (x + y) / y = x / y + 1 := by
    field_simp
  have hx0 : 0 ≤ x / y := div_nonneg hx hy.le
  have hx1 : 0 ≤ x / y + 1 := by linarith
  unfold frem ftrunc
  rw [hdiv, if_pos hx0, if_pos hx1, Int.floor_add_one]
  push_cast
  ring

lemma ramp_min (a m : ℚ) : min (a + 1/2) m - min (a - 1/2) (m - 1) = 1 := by
  rcases le_total (a + 1/2) m with h | h
  · rw [min_eq_left h, min_eq_left (by linarith)]
    ring
  · rw [min_eq_right h, min_eq_right (by linarith)]
    ring

lemma ramp_max (b m : ℚ) : max (b + 1/2) (m + 1) - max (b - 1/2) m = 1 := by
  rcases le_total (b + 1/2) (m + 1) with h | h
  · rw [max_eq_right h, max_eq_right (by linarith)]
    ring
  · rw [max_eq_left h, max_eq_left (by linarith)]
    ring

lemma buildSegment_start_ramp (hw : ℚ) (lc : Option LineCap) (s d : ℚ) :
    (buildSegment hw lc s d).start_to - (buildSegment hw lc s d).start_from = 1 := by
  rcases lc with _ | cap
  · exact ramp_min _ _
  · cases cap <;> exact ramp_min _ _

lemma buildSegment_end_ramp (hw : ℚ) (lc : Option LineCap) (s d : ℚ) :
    (buildSegment hw lc s d).end_to - (buildSegment hw lc s d).end_from = 1 := by
  rcases lc with _ | cap
  · exact ramp_max _ _
  · cases cap <;> exact ramp_max _ _

lemma buildSegment_start_to_le_end_from (hw : ℚ) (lc : Option LineCap) (s d : ℚ) :
    (buildSegment hw lc s d).start_to ≤ (buildSegment hw lc s d).end_from := by
  rcases lc with _ | cap
  · exact le_trans (min_le_right _ _) (le_max_right _ _)
  · cases cap <;> exact le_trans (min_le_right _ _) (le_max_right _ _)

lemma buildSegment_opacity_mul (hw : ℚ) (lc : Option LineCap) (s d : ℚ) :
    (buildSegment hw lc s d).opacity_mul = min (d + capExt hw lc) 1 := by
  rcases lc with _ | cap
  · show min ((s + d) - s) 1 = _
    rw [show (s + d) - s = d + capExt hw none from by show _ = d + 0; ring]
  · cases cap
    · show min ((s + d) - s) 1 = _
      rw [show (s + d) - s = d + capExt hw (some LineCap.butt) from by
        show _ = d + 0; ring]
    · show min ((s + d + hw) - (s - hw)) 1 = _
      rw [show (s + d + hw) - (s - hw) = d + capExt hw (some LineCap.square) from by
        show _ = d + 2 * hw; ring]
    · show min ((s + d + hw) - (s - hw)) 1 = _
      rw [show (s + d + hw) - (s - hw) = d + capExt hw (some LineCap.round) from by
        show _ = d + 2 * hw; ring]

lemma foldlM_segStep_mem (hw : ℚ) (dashes : List ℚ) (lc : Option LineCap) :
    ∀ (idxs : List ℕ) (acc out : List DashSegment × ℚ),
      List.foldlM (segStep hw dashes lc) acc idxs = some out →
      ∀ seg ∈ out.1,
        seg ∈ acc.1 ∨ ∃ s d, d ∈ dashes ∧ seg = buildSegment hw lc s d := by
  intro idxs
  induction idxs with
  | nil =>
    intro acc out h seg hm
    simp only [List.foldlM_nil] at h
    cases h
    exact Or.inl hm
  | cons i is ih =>
    intro acc out h seg hm
    rw [List.foldlM_cons] at h
    rcases hstep : segStep hw dashes lc acc i with _ | a
    · rw [hstep] at h
      simp at h
    · rw [hstep] at h
      simp only [Option.bind_eq_bind, Option.some_bind] at h
      rcases ih a out h seg hm with hIn | hEx
      · rcases hd : dashes[i]? with _ | dval
        · simp only [segStep, hd] at hstep
          simp at hstep
        · simp only [segStep, hd] at hstep
          by_cases hodd : i % 2 ≠ 0
          · rw [if_pos hodd] at hstep
            cases hstep
            exact Or.inl hIn
          · rw [if_neg hodd] at hstep
            cases hstep
            rcases List.mem_append.mp hIn with h1 | h2
            · exact Or.inl h1
            · refine Or.inr ⟨acc.2, dval, ?_, by simpa using h2⟩
              exact List.getElem?_mem hd
      · exact Or.inr hEx

lemma mem_compute_segments (hw : ℚ) (dashes : List ℚ) (lc : Option LineCap)
    (out : List DashSegment × ℚ)
    (h : compute_segments hw dashes lc = some out) :
    ∀ seg ∈ out.1, ∃ s d, d ∈ dashes ∧ seg = buildSegment hw lc s d := by
  intro seg hm
  rcases foldlM_segStep_mem hw dashes lc _ _ _ h seg hm with hIn | hEx
  · simp at hIn
  · exact hEx

lemma pickMax_foldl :
    ∀ (l : List (DashSegment × ℚ)) (q : DashSegment × ℚ),
      ∃ p, List.foldl pickMax (some q) l = some p ∧ p ∈ q :: l ∧ q.2 ≤ p.2 ∧
        ∀ x ∈ l, x.2 ≤ p.2 := by
  intro l
  induction l with
  | nil =>
    intro q
    exact ⟨q, rfl, List.mem_cons_self _ _, le_refl _, by simp⟩
  | cons a t ih =>
    intro q
    rw [List.foldl_cons]
    by_cases hlt : a.2 < q.2
    · have hstep : pickMax (some q) a = some q := by
        simp [pickMax, hlt]
      rw [hstep]
      obtain ⟨p, hp, hmem, hq, hb⟩ := ih q
      refine ⟨p, hp, ?_, hq, ?_⟩
      · rcases List.mem_cons.mp hmem with h1 | h2
        · exact h1 ▸ List.mem_cons_self _ _
        · exact List.mem_cons_of_mem _ (List.mem_cons_of_mem _ h2)
      · intro x hx
        rcases List.mem_cons.mp hx with h1 | h2
        · rw [h1]
          exact le_trans hlt.le hq
        · exact hb x h2
    · have hstep : pickMax (some q) a = some a := by
        simp [pickMax, hlt]
      rw [hstep]
      obtain ⟨p, hp, hmem, ha, hb⟩ := ih a
      refine ⟨p, hp, List.mem_cons_of_mem _ hmem, le_trans (not_lt.mp hlt) ha, ?_⟩
      intro x hx
      rcases List.mem_cons.mp hx with h1 | h2
      · rw [h1]
        exact ha
      · exact hb x h2

lemma map_snd_filterMap (l : List DashSegment) (g : DashSegment → Option ℚ) :
    (l.filterMap (fun d => (g d).map (fun op => (d, op)))).map Prod.snd
      = l.filterMap g := by
  induction l with
  | nil => rfl
  | cons a t ih =>
    rcases hg : g a with _ | v
    · simp [List.filterMap_cons, hg, ih]
    · simp [List.filterMap_cons, hg, ih]

lemma get_opacity_by_segment_cases (seg : DashSegment) (dist : ℚ)
    (h1 : seg.start_to - seg.start_from = 1)
    (h2 : seg.end_to - seg.end_from = 1)
    (h3 : seg.start_to ≤ seg.end_from) :
    (get_opacity_by_segment dist seg = none ↔
      (dist < seg.start_from ∨ seg.end_to < dist)) ∧
    (seg.start_from ≤ dist → dist ≤ seg.start_to →
      get_opacity_by_segment dist seg
        = some (seg.opacity_mul *
            ((dist - seg.start_from) / (seg.start_to - seg.start_from)))) ∧
    (seg.start_to < dist → dist < seg.end_from →
      get_opacity_by_segment dist seg = some (seg.opacity_mul * 1)) ∧
    (seg.end_from ≤ dist → dist ≤ seg.end_to →
      get_opacity_by_segment dist seg
        = some (seg.opacity_mul *
            ((seg.end_to - dist) / (seg.end_to - seg.end_from)))) ∧
    get_opacity_by_segment seg.start_from seg = some 0 := by
  have hsf : seg.start_from < seg.start_to := by linarith
  have hef : seg.end_from < seg.end_to := by linarith
  refine ⟨⟨?_, ?_⟩, ?_, ?_, ?_, ?_⟩
  · intro hn
    by_cases hA : dist < seg.start_from
    · exact Or.inl hA
    right
    by_cases hB : dist ≤ seg.start_to
    · exfalso
      simp only [get_opacity_by_segment, if_neg hA, if_pos hB] at hn
      simp at hn
    by_cases hC : dist < seg.end_from
    · exfalso
      simp only [get_opacity_by_segment, if_neg hA, if_neg hB, if_pos hC] at hn
      simp at hn
    by_cases hD : dist ≤ seg.end_to
    · exfalso
      simp only [get_opacity_by_segment, if_neg hA, if_neg hB, if_neg hC,
        if_pos hD] at hn
      simp at hn
    · exact not_le.mp hD
  · intro hor
    rcases hor with hA | hD
    · simp only [get_opacity_by_segment, if_pos hA]
      rfl
    · have hnA : ¬ dist < seg.start_from := by push_neg; linarith
      have hnB : ¬ dist ≤ seg.start_to := by push_neg; linarith
      have hnC : ¬ dist < seg.end_from := by push_neg; linarith
      have hnD : ¬ dist ≤ seg.end_to := by push_neg; linarith
      simp only [get_opacity_by_segment, if_neg hnA, if_neg hnB, if_neg hnC,
        if_neg hnD]
      rfl
  · intro hge hle
    have hnA : ¬ dist < seg.start_from := not_lt.mpr hge
    simp only [get_opacity_by_segment, if_neg hnA, if_pos hle]
    rfl
  · intro hgt hlt
    have hnA : ¬ dist < seg.start_from := by push_neg; linarith
    have hnB : ¬ dist ≤ seg.start_to := not_le.mpr hgt
    simp only [get_opacity_by_segment, if_neg hnA, if_neg hnB, if_pos hlt]
    rfl
  · intro hge hle
    by_cases hB : dist ≤ seg.start_to
    · have hd1 : dist = seg.start_to := le_antisymm hB (le_trans h3 hge)
      have hd2 : dist = seg.end_from := le_antisymm (hd1 ▸ h3) hge
      have hnA : ¬ dist < seg.start_from := by push_neg; linarith
      simp only [get_opacity_by_segment, if_neg hnA, if_pos hB]
      have ha : (dist - seg.start_from) / (seg.start_to - seg.start_from) = 1 := by
        rw [hd1, h1]
        norm_num
      have hb : (seg.end_to - dist) / (seg.end_to - seg.end_from) = 1 := by
        rw [hd2, h2]
        norm_num
      rw [Option.map_some']
      rw [ha, hb]
    · have hnA : ¬ dist < seg.start_from := by push_neg; linarith
      have hnC : ¬ dist < seg.end_from := not_lt.mpr hge
      simp only [get_opacity_by_segment, if_neg hnA, if_neg hB, if_neg hnC,
        if_pos hle]
      rfl
  · have hnA : ¬ seg.start_from < seg.start_from := lt_irrefl _
    have hB : seg.start_from ≤ seg.start_to := hsf.le
    simp only [get_opacity_by_segment, if_neg hnA, if_pos hB]
    rw [Option.map_some', sub_self, zero_div, mul_zero]

/-- Closed form of buildSegment with no cap, used to evaluate concrete
segment tables. -/
lemma buildSegment_none_eq (hw s d : ℚ) :
    buildSegment hw none s d =
      ⟨min (s - 1/2) ((s + (s + d))/2 - 1), min (s + 1/2) ((s + (s + d))/2),
       max (s + d - 1/2) ((s + (s + d))/2), max (s + d + 1/2) ((s + (s + d))/2 + 1),
       min (s + d - s) 1, none⟩ := rfl

/-- Closed form of buildSegment with Square caps. -/
lemma buildSegment_square_eq (hw s d : ℚ) :
    buildSegment hw (some LineCap.square) s d =
      ⟨min ((s - hw) - 1/2) (((s - hw) + ((s + d) + hw))/2 - 1),
       min ((s - hw) + 1/2) (((s - hw) + ((s + d) + hw))/2),
       max (((s + d) + hw) - 1/2) (((s - hw) + ((s + d) + hw))/2),
       max (((s + d) + hw) + 1/2) (((s - hw) + ((s + d) + hw))/2 + 1),
       min (((s + d) + hw) - (s - hw)) 1, none⟩ := rfl

/-- Closed form of buildSegment with Round caps. -/
lemma buildSegment_round_eq (hw s d : ℚ) :
    buildSegment hw (some LineCap.round) s d =
      ⟨min ((s - hw) - 1/2) (((s - hw) + ((s + d) + hw))/2 - 1),
       min ((s - hw) + 1/2) (((s - hw) + ((s + d) + hw))/2),
       max (((s + d) + hw) - 1/2) (((s - hw) + ((s + d) + hw))/2),
       max (((s + d) + hw) + 1/2) (((s - hw) + ((s + d) + hw))/2 + 1),
       min (((s + d) + hw) - (s - hw)) 1, some (s, s + d)⟩ := rfl

/-- Concrete value of the sample calculator calcA (line width 2, dashes
[2, 4], Round caps). -/
lemma calcA_eq : calcA =
    { half_line_width := 1,
      dashes := [⟨-(3/2), -(1/2), 5/2, 7/2, 1, some (0, 2)⟩,
                 ⟨9/2, 11/2, 17/2, 19/2, 1, some (6, 8)⟩],
      total_dash_len := 6, traveled_distance := 0 } := by
  norm_num [calcA, OpacityCalculator.new, compute_segments, segStep,
    buildSegment_round_eq, List.range_succ, List.foldlM_cons, List.foldlM_nil,
    List.getElem?_cons_zero, List.getElem?_cons_succ, min_def, max_def,
    Option.getD_some]

/-! ### Claim theorems -/

/-- C1: the claim says the round-cap square root in calculate is explicitly
guarded so that whenever the along-path resolver returns a cap residual
distance greater than half_line_width the across-path opacity resolves to 0.
The code has no such guard.  This theorem evaluates the embedded code at a
failing input: line width 2 (half width 1), dash pattern [2, 4], Round caps,
calculate at center_distance 0 and start_distance 16/5.  The resolver yields
cap distance 6/5 > 1 = half_line_width, the f64 square-root argument is
negative (NaN), and under Rust NaN semantics the across-path opacity is 1,
not 0: calculate returns opacity 3/10 (the along-path value) with is_in_line
true, where the claim demands opacity 0 and is_in_line false. -/
theorem claim_C1_unguarded_sqrt_eval :
    ((OpacityCalculator.new 2 (some [2, 4]) (some LineCap.round)).map (fun c =>
        ((c.get_opacity_by_start_distance (16/5)).distance_in_cap,
         (c.calculate 0 (16/5)).opacity,
         (c.calculate 0 (16/5)).is_in_line)))
      = some (some (6/5), QExt.ofQ (3/10), true) ∧ (1 : ℚ) < 6/5 := by
  norm_num [OpacityCalculator.new, OpacityCalculator.calculate,
    OpacityCalculator.get_opacity_by_start_distance, compute_segments, segStep,
    buildSegment_round_eq, get_opacity_by_segment, get_distance_in_cap,
    max_by_opacity, pickMax, frem, ftrunc, get_opacity_by_center_distance_nan_hw,
    QExt.ofQ, List.range_succ, List.foldlM_cons, List.foldlM_nil,
    List.foldl_cons, List.foldl_nil, List.filterMap_cons, List.filterMap_nil,
    List.getElem?_cons_zero, List.getElem?_cons_succ, min_def, max_def,
    Int.floor_eq_iff, List.cons_ne_nil, ne_eq]

/-- C2: the claim says constructing an OpacityCalculator with an empty dash
pattern (Some of an empty sequence) succeeds and behaves like a solid line.
In the code, compute_segments iterates `(0..0).chain(0..1)` = [0] and reads
`dashes[0]` of the empty vector, which panics (modelled by `none`): the first
conjunct evaluates the constructor on `Some []`.  The second conjunct shows
the absent-pattern half of the claim does hold: with pattern None the
calculator is built with no intervals and the along-path resolver returns
opacity 1 and no cap distance. -/
theorem claim_C2_empty_dash_panic_eval :
    OpacityCalculator.new 4 (some []) none = none ∧
      (OpacityCalculator.new 4 none none).map
          (fun c => c.get_opacity_by_start_distance 5)
        = some { opacity := 1, distance_in_cap := none } := by
  norm_num [OpacityCalculator.new, OpacityCalculator.get_opacity_by_start_distance,
    compute_segments, segStep, List.range_succ, List.foldlM_cons, List.foldlM_nil]

/-- C3 counterexample: the claim says that for every effective_half_width ≥ 0
and center_distance ≥ effective_half_width + 1/2 the across-path resolver
returns exactly 0.  At effective_half_width = 1/5 and center_distance = 4/5
the hypotheses hold, but feather_to = max(1/5 + 1/2, 1) = 1 > 4/5, so the
resolver returns (2/5) * (1/5) = 2/25 ≠ 0. -/
theorem claim_C3_cex :
    (0 : ℚ) ≤ 1/5 ∧ (1/5 : ℚ) + 1/2 ≤ 4/5 ∧
      get_opacity_by_center_distance (4/5) (1/5) ≠ 0 := by
  norm_num [get_opacity_by_center_distance, min_def, max_def]

/-- C3 (amended): for every effective_half_width ≥ 0 and every
center_distance ≥ max(effective_half_width + 1/2, 1) (that is, at or past
feather_to, which is clamped below by 1), the across-path resolver returns
exactly 0.  The claim as stated fails for effective_half_width < 1/2, where
the feather band extends past effective_half_width + 1/2 up to 1. -/
theorem claim_C3_amended (ehw cd : ℚ) (h0 : 0 ≤ ehw)
    (h1 : max (ehw + 1/2) 1 ≤ cd) :
    get_opacity_by_center_distance cd ehw = 0 := by
  have hfrom_le : max (ehw - 1/2) 0 ≤ max (ehw + 1/2) 1 := by
    apply max_le
    · exact le_trans (by linarith) (le_max_left _ _)
    · exact le_trans (by norm_num) (le_max_right _ _)
  simp only [get_opacity_by_center_distance]
  rw [if_neg (not_lt.mpr (le_trans hfrom_le h1)), if_neg (not_lt.mpr h1),
    mul_zero]

/-- C3 witness: the amended theorem applied at effective_half_width 2 and
center_distance 3. -/
theorem claim_C3_amended_witness :
    (0 : ℚ) ≤ 2 ∧ max ((2 : ℚ) + 1/2) 1 ≤ 3 ∧
      get_opacity_by_center_distance 3 2 = 0 :=
  ⟨by norm_num, by norm_num [max_def],
   claim_C3_amended 2 3 (by norm_num) (by norm_num [max_def])⟩

/-- C4 counterexample: the claim says opacity_mul always equals
min(dash_length, 1) with dash_length the raw length from the pattern, for
every cap style.  With line width 1 (half width 1/2), pattern [1/2, 1/2] and
Square caps, the built segments have opacity_mul = 1 (the span is extended by
the line width before the min is taken), while min(raw dash length, 1) = 1/2. -/
theorem claim_C4_cex :
    (OpacityCalculator.new 1 (some [1/2, 1/2]) (some LineCap.square)).map
        (fun c => c.dashes.map (fun s => s.opacity_mul))
      = some [1, 1] ∧ ((1 : ℚ) ≠ min (1/2) 1) := by
  norm_num [OpacityCalculator.new, compute_segments, segStep,
    buildSegment_square_eq, List.range_succ, List.foldlM_cons, List.foldlM_nil,
    List.getElem?_cons_zero, List.getElem?_cons_succ, min_def, max_def]

/-- C4 (amended): every dash interval built by compute_segments is literally
the loop body's segment for some pattern entry d at some cursor position s
(`seg = buildSegment hw lc s d` — so d is the generating "on" dash, the one
whose span the interval's fields are computed from), and its opacity_mul
equals min(span, 1) for that same dash, where span is the cap-extended
length: the raw dash length d for Butt or absent caps, and d + line width
(2 × half_line_width) for Square and Round caps. -/
theorem claim_C4_amended (hw : ℚ) (dashes : List ℚ) (lc : Option LineCap)
    (out : List DashSegment × ℚ)
    (h : compute_segments hw dashes lc = some out) :
    ∀ seg ∈ out.1, ∃ s d, d ∈ dashes ∧ seg = buildSegment hw lc s d ∧
      seg.opacity_mul = min (d + capExt hw lc) 1 := by
  intro seg hm
  obtain ⟨s, d, hd, rfl⟩ := mem_compute_segments hw dashes lc out h seg hm
  exact ⟨s, d, hd, rfl, buildSegment_opacity_mul hw lc s d⟩

/-- C4 witness: the amended theorem applied to the table built from line
width 2 (half width 1), pattern [3], Square caps. -/
theorem claim_C4_amended_witness :
    compute_segments 1 [3] (some LineCap.square)
        = some ([buildSegment 1 (some LineCap.square) 0 3,
                 buildSegment 1 (some LineCap.square) 3 3], 3) ∧
      (buildSegment 1 (some LineCap.square) 0 3).opacity_mul
        = min ((3 : ℚ) + capExt 1 (some LineCap.square)) 1 := by
  have hc : compute_segments 1 [3] (some LineCap.square)
      = some ([buildSegment 1 (some LineCap.square) 0 3,
               buildSegment 1 (some LineCap.square) 3 3], 3) := by
    norm_num [compute_segments, segStep, buildSegment_square_eq,
      List.range_succ, List.foldlM_cons, List.foldlM_nil,
      List.getElem?_cons_zero, List.getElem?_cons_succ, min_def, max_def]
  refine ⟨hc, ?_⟩
  obtain ⟨s, d, hd, hseg, he⟩ := claim_C4_amended 1 [3] (some LineCap.square) _ hc
    (buildSegment 1 (some LineCap.square) 0 3) (by simp)
  have hd3 : d = 3 := by simpa using hd
  rw [hd3] at he
  exact he

/-- C5: periodicity of the along-path resolver.  For a calculator with a
non-empty interval table and positive total dash length, and nonnegative
traveled distance and query distance, the resolver at d + L equals the
resolver at d, and advancing the traveled distance by exactly L leaves every
query unchanged. -/
theorem claim_C5_periodicity (c : OpacityCalculator) (d : ℚ)
    (h1 : c.dashes ≠ []) (h2 : 0 < c.total_dash_len)
    (h3 : 0 ≤ c.traveled_distance) (h4 : 0 ≤ d) :
    c.get_opacity_by_start_distance (d + c.total_dash_len)
        = c.get_opacity_by_start_distance d ∧
      (c.add_traveled_distance c.total_dash_len).get_opacity_by_start_distance d
        = c.get_opacity_by_start_distance d := by
  have hx : 0 ≤ c.traveled_distance + d := add_nonneg h3 h4
  have hfr : frem (c.traveled_distance + d + c.total_dash_len) c.total_dash_len
      = frem (c.traveled_distance + d) c.total_dash_len :=
    frem_add_right _ _ hx h2
  constructor
  · simp only [OpacityCalculator.get_opacity_by_start_distance, if_neg h1]
    rw [show c.traveled_distance + (d + c.total_dash_len)
        = c.traveled_distance + d + c.total_dash_len from by ring, hfr]
  · simp only [OpacityCalculator.get_opacity_by_start_distance,
      OpacityCalculator.add_traveled_distance, if_neg h1]
    rw [show c.traveled_distance + c.total_dash_len + d
        = c.traveled_distance + d + c.total_dash_len from by ring, hfr]

/-- C5 witness: the periodicity theorem applied to calcA (line width 2,
dashes [2, 4], Round caps, total length 6) at query distance 3. -/
theorem claim_C5_periodicity_witness :
    calcA.dashes ≠ [] ∧ (0 : ℚ) < calcA.total_dash_len ∧
      (0 : ℚ) ≤ calcA.traveled_distance ∧
      calcA.get_opacity_by_start_distance (3 + calcA.total_dash_len)
          = calcA.get_opacity_by_start_distance 3 ∧
      (calcA.add_traveled_distance calcA.total_dash_len).get_opacity_by_start_distance 3
          = calcA.get_opacity_by_start_distance 3 := by
  have hne : calcA.dashes ≠ [] := by simp [calcA_eq]
  have hpos : (0 : ℚ) < calcA.total_dash_len := by
    rw [calcA_eq]
    norm_num
  have htrav : (0 : ℚ) ≤ calcA.traveled_distance := by
    rw [calcA_eq]
  have h := claim_C5_periodicity calcA 3 hne hpos htrav (by norm_num)
  exact ⟨hne, hpos, htrav, h.1, h.2⟩

/-- C6: the point-to-interval opacity function on every dash interval built
by compute_segments.  It is absent exactly outside [start_from, end_to];
inside it returns opacity_mul times the rising ramp up to start_to, times 1
strictly between start_to and end_from, and times the falling ramp from
end_from to end_to; at dist = start_from it is defined with value 0, not
absent. -/
theorem claim_C6_interval_opacity (hw : ℚ) (dashes : List ℚ)
    (lc : Option LineCap) (out : List DashSegment × ℚ)
    (h : compute_segments hw dashes lc = some out) :
    ∀ seg ∈ out.1, ∀ dist : ℚ,
      (get_opacity_by_segment dist seg = none ↔
        (dist < seg.start_from ∨ seg.end_to < dist)) ∧
      (seg.start_from ≤ dist → dist ≤ seg.start_to →
        get_opacity_by_segment dist seg
          = some (seg.opacity_mul *
              ((dist - seg.start_from) / (seg.start_to - seg.start_from)))) ∧
      (seg.start_to < dist → dist < seg.end_from →
        get_opacity_by_segment dist seg = some (seg.opacity_mul * 1)) ∧
      (seg.end_from ≤ dist → dist ≤ seg.end_to →
        get_opacity_by_segment dist seg
          = some (seg.opacity_mul *
              ((seg.end_to - dist) / (seg.end_to - seg.end_from)))) ∧
      get_opacity_by_segment seg.start_from seg = some 0 := by
  intro seg hm dist
  obtain ⟨s, d, _, rfl⟩ := mem_compute_segments hw dashes lc out h seg hm
  exact get_opacity_by_segment_cases _ dist
    (buildSegment_start_ramp hw lc s d)
    (buildSegment_end_ramp hw lc s d)
    (buildSegment_start_to_le_end_from hw lc s d)

/-- C6 witness: the theorem applied to the first interval of the table built
from half width 1, pattern [2, 2], no cap: at dist = start_from the opacity
is defined and equals 0. -/
theorem claim_C6_interval_opacity_witness :
    compute_segments 1 [2, 2] none = some ([segW1, segW2], 4) ∧
      get_opacity_by_segment segW1.start_from segW1 = some 0 := by
  have hc : compute_segments 1 [2, 2] none = some ([segW1, segW2], 4) := by
    norm_num [compute_segments, segStep, segW1, segW2, buildSegment_none_eq,
      List.range_succ, List.foldlM_cons, List.foldlM_nil,
      List.getElem?_cons_zero, List.getElem?_cons_succ, min_def, max_def]
  exact ⟨hc,
    (claim_C6_interval_opacity 1 [2, 2] none _ hc segW1 (by simp) 0).2.2.2.2⟩

/-- C7: for a calculator with a non-empty interval table, the along-path
resolver returns the maximum among the per-interval opacities defined at the
reduced distance (its opacity is one of them and bounds all of them), and
when no interval yields a defined opacity it returns opacity 0 with an
absent cap distance. -/
theorem claim_C7_max_selection (c : OpacityCalculator) (d : ℚ)
    (hne : c.dashes ≠ []) :
    ((c.dashes.filterMap (fun s => get_opacity_by_segment
        (frem (c.traveled_distance + d) c.total_dash_len) s)) = [] →
      c.get_opacity_by_start_distance d
        = { opacity := 0, distance_in_cap := none }) ∧
    ((c.dashes.filterMap (fun s => get_opacity_by_segment
        (frem (c.traveled_distance + d) c.total_dash_len) s)) ≠ [] →
      (c.get_opacity_by_start_distance d).opacity ∈
        c.dashes.filterMap (fun s => get_opacity_by_segment
          (frem (c.traveled_distance + d) c.total_dash_len) s) ∧
      ∀ o ∈ c.dashes.filterMap (fun s => get_opacity_by_segment
          (frem (c.traveled_distance + d) c.total_dash_len) s),
        o ≤ (c.get_opacity_by_start_distance d).opacity) := by
  have hmap := map_snd_filterMap c.dashes (fun s => get_opacity_by_segment
    (frem (c.traveled_distance + d) c.total_dash_len) s)
  have hres : c.get_opacity_by_start_distance d =
      { opacity := ((max_by_opacity (c.dashes.filterMap (fun s =>
            (get_opacity_by_segment
              (frem (c.traveled_distance + d) c.total_dash_len) s).map
                (fun op => (s, op))))).map (fun x => x.2)).getD 0
        distance_in_cap := ((max_by_opacity (c.dashes.filterMap (fun s =>
            (get_opacity_by_segment
              (frem (c.traveled_distance + d) c.total_dash_len) s).map
                (fun op => (s, op))))).map (fun x => x.1)).bind
          (fun s => get_distance_in_cap
            (frem (c.traveled_distance + d) c.total_dash_len) s) } := by
    simp only [OpacityCalculator.get_opacity_by_start_distance, if_neg hne]
  constructor
  · intro hops
    have hp : c.dashes.filterMap (fun s =>
        (get_opacity_by_segment
          (frem (c.traveled_distance + d) c.total_dash_len) s).map
            (fun op => (s, op))) = [] :=
      List.map_eq_nil_iff.mp (hmap.trans hops)
    rw [hres, hp]
    rfl
  · intro hops
    rcases hq : c.dashes.filterMap (fun s =>
        (get_opacity_by_segment
          (frem (c.traveled_distance + d) c.total_dash_len) s).map
            (fun op => (s, op))) with _ | ⟨a, t⟩
    · exact absurd (by rw [← hmap, hq]; rfl) hops
    obtain ⟨p, hpmax, hmem, hqa, hb⟩ := pickMax_foldl t a
    have hfold : max_by_opacity (c.dashes.filterMap (fun s =>
        (get_opacity_by_segment
          (frem (c.traveled_distance + d) c.total_dash_len) s).map
            (fun op => (s, op)))) = some p := by
      rw [hq]
      show List.foldl pickMax (pickMax none a) t = some p
      exact hpmax
    have hop : (c.get_opacity_by_start_distance d).opacity = p.2 := by
      rw [hres, hfold]
      rfl
    constructor
    · rw [hop, ← hmap]
      exact List.mem_map_of_mem Prod.snd (by rw [hq]; exact hmem)
    · intro o ho
      rw [← hmap] at ho
      obtain ⟨x, hx, hxo⟩ := List.mem_map.mp ho
      rw [hop, ← hxo]
      rw [hq] at hx
      rcases List.mem_cons.mp hx with hx1 | hx2
      · rw [hx1]
        exact hqa
      · exact hb x hx2

/-- C7 witness: the theorem applied to calcA at query distance 3, where the
first interval yields a defined opacity, so the resolver's opacity is one of
the defined per-interval opacities. -/
theorem claim_C7_max_selection_witness :
    calcA.dashes ≠ [] ∧
      (calcA.get_opacity_by_start_distance 3).opacity ∈
        calcA.dashes.filterMap (fun s => get_opacity_by_segment
          (frem (calcA.traveled_distance + 3) calcA.total_dash_len) s) := by
  have hne : calcA.dashes ≠ [] := by simp [calcA_eq]
  have hops : calcA.dashes.filterMap (fun s => get_opacity_by_segment
      (frem (calcA.traveled_distance + 3) calcA.total_dash_len) s) ≠ [] := by
    norm_num [calcA_eq, frem, ftrunc, get_opacity_by_segment,
      List.filterMap_cons, min_def, max_def, Int.floor_eq_iff]
  exact ⟨hne, ((claim_C7_max_selection calcA 3 hne).2 hops).1⟩

/-- C8: Scenario A.  Line width 4, no dashes, no cap: calculate(0, 0) returns
opacity 1 with is_in_line true, and calculate(3, 0) returns opacity 0 (half
width 2, feather_to = 5/2 < 3). -/
theorem claim_C8_scenario_A :
    (OpacityCalculator.new 4 none none).map (fun c =>
        ((c.calculate 0 0).opacity, (c.calculate 0 0).is_in_line,
         (c.calculate 3 0).opacity))
      = some (QExt.ofQ 1, true, QExt.ofQ 0) := by
  norm_num [OpacityCalculator.new, OpacityCalculator.calculate,
    OpacityCalculator.get_opacity_by_start_distance,
    get_opacity_by_center_distance, QExt.ofQ]

/-- C9: every dash interval built by compute_segments has feather ramps of
width exactly one unit on both ends (both endpoints of each ramp clamp to the
midpoint under the same condition), hence start_from < start_to and
end_from < end_to, and the ramp denominators in the point-to-interval opacity
function never vanish.  This holds for every built interval, with no side
condition on the span. -/
theorem claim_C9_ramp_widths (hw : ℚ) (dashes : List ℚ) (lc : Option LineCap)
    (out : List DashSegment × ℚ)
    (h : compute_segments hw dashes lc = some out) :
    ∀ seg ∈ out.1,
      seg.start_to - seg.start_from = 1 ∧ seg.end_to - seg.end_from = 1 ∧
        seg.start_from < seg.start_to ∧ seg.end_from < seg.end_to := by
  intro seg hm
  obtain ⟨s, d, _, rfl⟩ := mem_compute_segments hw dashes lc out h seg hm
  have h1 := buildSegment_start_ramp hw lc s d
  have h2 := buildSegment_end_ramp hw lc s d
  exact ⟨h1, h2, by linarith, by linarith⟩

/-- C9 witness: the theorem applied to the first interval of the table built
from half width 1, pattern [2, 2], no cap. -/
theorem claim_C9_ramp_widths_witness :
    compute_segments 1 [2, 2] none = some ([segW1, segW2], 4) ∧
      segW1.start_to - segW1.start_from = 1 ∧
      segW1.end_to - segW1.end_from = 1 ∧
      segW1.start_from < segW1.start_to ∧ segW1.end_from < segW1.end_to := by
  have hc : compute_segments 1 [2, 2] none = some ([segW1, segW2], 4) := by
    norm_num [compute_segments, segStep, segW1, segW2, buildSegment_none_eq,
      List.range_succ, List.foldlM_cons, List.foldlM_nil,
      List.getElem?_cons_zero, List.getElem?_cons_succ, min_def, max_def]
  exact ⟨hc, claim_C9_ramp_widths 1 [2, 2] none _ hc segW1 (by simp)⟩

/-- C10: coords_pair_to_max_zoom_tile_range is symmetric in its two
coordinate arguments, and the returned range always satisfies
min_x ≤ max_x and min_y ≤ max_y.  This holds for every projection function,
in particular for the Web Mercator projection of the source. -/
theorem claim_C10_tile_range {C : Type} (coords_to_xy18 : C → ℕ × ℕ)
    (c1 c2 : C) :
    coords_pair_to_max_zoom_tile_range coords_to_xy18 c1 c2
        = coords_pair_to_max_zoom_tile_range coords_to_xy18 c2 c1 ∧
      (coords_pair_to_max_zoom_tile_range coords_to_xy18 c1 c2).min_x
          ≤ (coords_pair_to_max_zoom_tile_range coords_to_xy18 c1 c2).max_x ∧
      (coords_pair_to_max_zoom_tile_range coords_to_xy18 c1 c2).min_y
          ≤ (coords_pair_to_max_zoom_tile_range coords_to_xy18 c1 c2).max_y := by
  refine ⟨?_, min_le_max, min_le_max⟩
  simp only [coords_pair_to_max_zoom_tile_range]
  rw [min_comm, max_comm, min_comm (coords_to_max_zoom_tile coords_to_xy18 c1).y,
    max_comm (coords_to_max_zoom_tile coords_to_xy18 c1).y]
